import Mathlib

/-!
Verification of the go-fetch system-information tool.

The program gathers host facts (hostname, OS, kernel, uptime, shell, CPU,
GPU, memory, installed-package count) and prints them as an aligned,
colour-coded summary.  This file gives a shallow embedding of the pure
logic of the main source file (formatters, the GPU-name cleaner, the
package-count dispatch and line counting, the row construction and
alignment of `main`) and proves the specification's claims about it.

Modelling conventions:
* Go `uint64` values are `Nat` together with explicit `< 2 ^ 64` bounds
  where overflow matters; Go `int64` wrap-around is modelled by
  `int64wrap`.
* Go strings are `String` / `List Char`; the counted quantities are ASCII
  so byte length and character length agree.
* Fallible collaborators (hostname query, host-info query, command
  execution, path probing) are parameters of type `Except String _` or
  plain functions, mirroring Go's value-or-error return pairs.
* Go's `%.1f` of `float64(bytes)/float64(div)` is modelled exactly:
  `toFloat64` performs the uint64-to-float64 rounding (53-bit, ties to
  even), after which the division by the power of two `div` and the
  one-decimal rendering of the resulting dyadic rational are exact
  (a dyadic rational is never a decimal tie).  `%.2f` of the CPU clock
  (`fmtFix2`) abstracts from that conversion and rounds the exact
  rational; no theorem below depends on those digits.
-/

namespace GoFetch

/-! ### Fixed-point decimal rendering (fmt's %.1f / %.2f) -/

/-- Round `n / d` to the nearest integer, ties to even
(the rounding used by Go's `fmt` when printing floats). -/
def roundHalfEven (n d : Nat) : Nat :=
  let q := n / d
  let r := n % d
  if 2 * r < d then q
  else if d < 2 * r then q + 1
  else if q % 2 = 0 then q else q + 1

/-- The exact rational `n / d` rendered with exactly one decimal digit,
ties to even.  Applied by `formatBytes` to `n := toFloat64 bytes` and a
power-of-two `d`, this is exactly `fmt.Sprintf("%.1f", ...)` of the Go
float64 quotient: the float division by a power of two is exact, and a
dyadic rational never sits on a one-decimal rounding tie. -/
def fmtFix1 (n d : Nat) : String :=
  let t := roundHalfEven (10 * n) d
  toString (t / 10) ++ "." ++ toString (t % 10)

/-- Round a rational to the nearest integer, ties to even, computed on
the numerator and denominator. -/
def roundHalfEvenQ (x : Rat) : Int :=
  let d : Int := (x.den : Int)
  let q := Int.fdiv x.num d
  let r := x.num - q * d
  if 2 * r < d then q else if d < 2 * r then q + 1
  else if q % 2 = 0 then q else q + 1

/-- Left-pad a (two-digit-bounded) integer with a zero. -/
def pad2 (n : Int) : String :=
  if n < 10 then "0" ++ toString n else toString n

/-- Model of `fmt.Sprintf("%.2f", x)` for a nonnegative rational `x`,
rounding the exact rational; this abstracts from the float64 rounding
of `mhz / 1000`, which for some inputs changes the last digit — no
theorem below asserts anything about those digits. -/
def fmtFix2 (x : Rat) : String :=
  let t := roundHalfEvenQ (100 * x)
  toString (t.tdiv 100) ++ "." ++ pad2 (t.tmod 100)

/-! ### formatBytes -/

/-- The byte-unit suffix string `"KMGTPE"` indexed by `formatBytes`. -/
def kmgtpe : List Char := ['K', 'M', 'G', 'T', 'P', 'E']

/-- The `for n := bytes / unit; n >= unit; n /= unit` loop of
`formatBytes`, carrying `div` and `exp` exactly as the source does.
The loop is written with explicit fuel so that it is structurally
recursive; `fuel = n` always suffices, since each iteration divides
`n` by 1024. -/
def fbLoopF : Nat → Nat → Nat → Nat → Nat × Nat
  | 0, _, div, exp => (div, exp)
  | fuel + 1, n, div, exp =>
    if 1024 ≤ n then fbLoopF fuel (n / 1024) (div * 1024) (exp + 1)
    else (div, exp)

/-- Bit length of a natural number, with explicit fuel so that it is
structurally recursive (fuel 64 covers every `uint64` value). -/
def bitsF : Nat → Nat → Nat
  | 0, _ => 0
  | fuel + 1, n => if n = 0 then 0 else bitsF fuel (n / 2) + 1

/-- Go's `uint64` to `float64` conversion for `n < 2 ^ 64`: the value is
rounded to 53 significant bits, ties to the even significand.  Exact
for `n < 2 ^ 53`; above that the low `bitLen n - 53` bits are rounded
away, which is the rounding step `formatBytes` inherits from
`float64(bytes)`. -/
def toFloat64 (n : Nat) : Nat :=
  let b := bitsF 64 n
  if b ≤ 53 then n
  else roundHalfEven n (2 ^ (b - 53)) * 2 ^ (b - 53)

/-- Embeds `formatBytes` (src/unnamed/part_000 lines 127-138): binary
(base-1024) humanisation of a byte count.  The printed value is
`fmt.Sprintf("%.1f", float64(bytes)/float64(div))`: `bytes` is first
rounded by the float64 conversion (`toFloat64`), after which the
division by the power of two `div` and the one-decimal rendering are
exact (`fmtFix1`).  Go indexes the byte string `"KMGTPE"` with `exp`
(a panic if out of range, which never happens for `uint64` inputs);
the embedding uses `getD` with a dummy default. -/
def formatBytes (bytes : Nat) : String :=
  if bytes < 1024 then toString bytes ++ " B"
  else
    let p := fbLoopF bytes (bytes / 1024) 1024 0
    fmtFix1 (toFloat64 bytes) p.1 ++ " " ++
      String.singleton (kmgtpe.getD p.2 '?') ++ "iB"

/-! ### formatUptime -/

/-- Reinterpret a natural number as a Go `int64` (two's complement). -/
def int64wrap (n : Nat) : Int :=
  let m := n % 18446744073709551616
  if m < 9223372036854775808 then (m : Int) else (m : Int) - 18446744073709551616

/-- Embeds `formatUptime` (src/unnamed/part_000 lines 116-123).
Go computes `time.Duration(uptime) * time.Second` — an `int64`
nanosecond count that wraps on overflow — and then truncates
`duration.Hours() / 24`, `duration.Hours()` and `duration.Minutes()`
(float64 values) to `int` and reduces with Go's `%` (sign of the
dividend).  For every duration that is a whole multiple of 10^9 ns —
in particular every non-wrapped input and the value 0 — the float64
computation is exact and equals truncated integer division, which is
what this embedding uses (`Int.tdiv` / `Int.tmod` are Go's `/` and `%`). -/
def formatUptime (uptime : Nat) : String :=
  let d : Int := int64wrap (uptime * 1000000000)
  let days : Int := d.tdiv 86400000000000
  let hours : Int := (d.tdiv 3600000000000).tmod 24
  let minutes : Int := (d.tdiv 60000000000).tmod 60
  toString days ++ "d " ++ toString hours ++ "h " ++ toString minutes ++ "m"

/-! ### Package counting -/

/-- Go's `strings.Split(s, "\n")`: the newline-delimited segments of a
string (always at least one segment; splitting the empty string yields
one empty segment). -/
def splitOnNewline : List Char → List (List Char)
  | [] => [[]]
  | c :: cs =>
    let r := splitOnNewline cs
    if c = '\n' then [] :: r
    else
      match r with
      | s :: rest => (c :: s) :: rest
      | [] => [[c]]

/-- The line-count step of `getPackageCount` (part_000 line 182):
`len(strings.Split(string(output), "\n")) - 1`. -/
def packageCountOfOutput (output : List Char) : Int :=
  (splitOnNewline output).length - 1

/-- An external command: name and arguments (the data passed to
`exec.Command`). -/
structure Cmd where
  name : String
  args : List String
  deriving DecidableEq, Repr

def dpkgCmd : Cmd := ⟨"dpkg", ["--get-selections"]⟩
def pacmanCmd : Cmd := ⟨"pacman", ["-Q"]⟩
def rpmCmd : Cmd := ⟨"rpm", ["-qa"]⟩

/-- The command-selection dispatch of `getPackageCount`
(part_000 lines 151-174): a switch on `runtime.GOOS`, then on the
re-queried platform identity, with a `LookPath` probe chain in the
default case. -/
def selectPkgCmd (goos : String) (platform : String) (lookPath : String → Bool) :
    Except String Cmd :=
  if goos = "linux" then
    if platform = "debian" ∨ platform = "ubuntu" then Except.ok dpkgCmd
    else if platform = "arch" then Except.ok pacmanCmd
    else if platform = "fedora" ∨ platform = "centos" ∨ platform = "rhel" then
      Except.ok rpmCmd
    else if lookPath ("dpkg") then Except.ok dpkgCmd
    else if lookPath ("pacman") then Except.ok pacmanCmd
    else if lookPath ("rpm") then Except.ok rpmCmd
    else Except.error ("unsupported Linux distribution")
  else Except.error ("Unsupported OS for package counting")

/-- Host-info record returned by the host/OS info collaborator
(gopsutil's `host.Info`). -/
structure OSInfo where
  platform : String
  platformVersion : String
  kernelVersion : String
  uptime : Nat
  deriving DecidableEq, Repr

/-- Embeds `getPackageCount` (part_000 lines 143-183) as a function of
its collaborators: the re-queried host info, `runtime.GOOS`, the
executable-path probe and the command runner.  The Go function returns
an `(int, error)` pair, modelled as `Int × Option String`. -/
def getPackageCount (hostInfo : Except String OSInfo) (goos : String)
    (lookPath : String → Bool) (runCmd : Cmd → Except String String) :
    Int × Option String :=
  match hostInfo with
  | Except.error e => (0, some e)
  | Except.ok info =>
    match selectPkgCmd goos info.platform lookPath with
    | Except.error e => (0, some e)
    | Except.ok cmd =>
      match runCmd cmd with
      | Except.error e => (0, some e)
      | Except.ok out => (packageCountOfOutput out.data, none)

/-! ### GPU name cleaning -/

/-- Character class `[A-Z0-9]` of the GPU-name pattern. -/
def isUpperDigit (c : Char) : Bool :=
  ('A' ≤ c && c ≤ 'Z') || ('0' ≤ c && c ≤ '9')

/-- Character class `\s` of Go's regexp (RE2 Perl class): `[\t\n\f\r ]`. -/
def isRE2Space (c : Char) : Bool :=
  c = '\t' || c = '\n' || c = '\x0c' || c = '\r' || c = ' '

/-- Go's `unicode.IsSpace` (the White_Space property), used by
`strings.TrimSpace`. -/
def isUnicodeSpace (c : Char) : Bool :=
  c = ' ' || ('\t' ≤ c && c ≤ '\r') || c = '\u0085' || c = '\u00A0' ||
  c = '\u1680' || ('\u2000' ≤ c && c ≤ '\u200A') || c = '\u2028' ||
  c = '\u2029' || c = '\u202F' || c = '\u205F' || c = '\u3000'

/-- Go's `strings.TrimSpace`: drop Unicode whitespace from both ends. -/
def goTrimSpace (l : List Char) : List Char :=
  ((l.dropWhile isUnicodeSpace).reverse.dropWhile isUnicodeSpace).reverse

/-- Embeds `cleanGPUName`'s regular-expression step
(part_000 lines 211-218): the anchored pattern
`[A-Z0-9]+` `\s*` `\[` `(.+)` `\]` matches the whole string iff it is an
alphanumeric-uppercase run, then whitespace, then a bracketed suffix
whose interior is nonempty and newline-free (RE2's `.` excludes `\n`);
on a match the trimmed capture is returned, otherwise the input. -/
def cleanGPUNameL (s : List Char) : List Char :=
  let r2 := (s.dropWhile isUpperDigit).dropWhile isRE2Space
  if s.takeWhile isUpperDigit = [] then s
  else if r2.head? = some '[' then
    let rest := r2.tail
    if rest.getLast? = some ']' then
      let inner := rest.dropLast
      if inner ≠ [] ∧ '\n' ∉ inner then goTrimSpace inner else s
    else s
  else s

/-- Embeds `cleanGPUName` (part_000 lines 211-218). -/
def cleanGPUName (s : String) : String :=
  ⟨cleanGPUNameL s.data⟩

/-! ### GPU information -/

structure VendorInfo where
  name : String
  deriving DecidableEq, Repr

structure ProductInfo where
  name : String
  deriving DecidableEq, Repr

/-- ghw's per-card device information; `product` and `vendor` are
nullable pointers in Go, modelled as `Option`. -/
structure DeviceInfo where
  product : Option ProductInfo
  vendor : Option VendorInfo
  deriving DecidableEq, Repr

/-- A graphics card as returned by ghw; `DeviceInfo` is a nullable
pointer. -/
structure GraphicsCard where
  deviceInfo : Option DeviceInfo
  deriving DecidableEq, Repr

/-- Embeds the card-list branch of `getGPUInfo`
(part_000 lines 227-234).  The result `none` models a nil-pointer
dereference panic: when the first card's `DeviceInfo` is nil (or its
`Product` and `Vendor` are both nil), the fallback
`card.DeviceInfo.Vendor.Name` dereferences a nil pointer. -/
def getGPUInfo (cards : List GraphicsCard) : Option String :=
  match cards with
  | [] => some ("None")
  | card :: _ =>
    match card.deviceInfo with
    | some di =>
      match di.product with
      | some p => some (cleanGPUName p.name)
      | none =>
        match di.vendor with
        | some v => some ("Unknown GPU (Vendor: " ++ v.name ++ ")")
        | none => none
    | none => none

/-! ### filepath.Base -/

/-- Go's `filepath.Base` on Unix: empty path gives `"."`; otherwise
trailing slashes are stripped, everything up to the last remaining
slash is dropped, and an all-slash path gives `"/"`. -/
def goFilepathBase (path : String) : String :=
  if path = "" then "."
  else
    let t := (path.data.reverse.dropWhile (fun c => c = '/')).reverse
    let base := (t.reverse.takeWhile (fun c => c ≠ '/')).reverse
    if base = [] then "/" else ⟨base⟩

/-! ### Presenter -/

def colReset : String := "\x1b[0m"
def colText : String := "\x1b[34m"
def colCategory : String := "\x1b[95m"

/-- Embeds `colourise` (part_000 lines 32-34). -/
def colourise (t color : String) : String :=
  color ++ t ++ colReset

/-- The body of `main`'s label-width loop (part_000 lines 96-100):
`if len(item.label) > maxLabelLength { maxLabelLength = len(item.label) }`. -/
def maxStep (m : Nat) (item : String × String) : Nat :=
  if item.1.length > m then item.1.length else m

/-- The label-width computation of `main` (part_000 lines 94-100):
the maximum length over the row labels (labels are ASCII, so Go's
byte length equals the character length used here). -/
def maxLabelLength (info : List (String × String)) : Nat :=
  info.foldl maxStep 0

/-- One row of the aligned output (part_000 lines 103-109):
`fmt.Printf("%s%-*s %s\n", colourise(label), width-len(label), "",
colourise(value))` — the coloured label, padding spaces up to the
shared column, a space, the coloured value. -/
def renderRow (width : Nat) (item : String × String) : String :=
  colourise item.1 colCategory ++
    String.mk (List.replicate (width - item.1.length) ' ') ++ " " ++
    colourise item.2 colText ++ "\n"

/-! ### main's row construction -/

/-- Memory record returned by the virtual-memory collaborator. -/
structure MemInfo where
  used : Nat
  total : Nat
  deriving DecidableEq, Repr

/-- One CPU descriptor returned by the CPU-info collaborator. -/
structure CPUDesc where
  modelName : String
  mhz : Rat
  deriving DecidableEq, Repr

/-- Embeds `getCPUInfo` (part_000 lines 187-207): on failure or an
empty descriptor list, model `"Unknown"`, speed 0; the logical core
count always comes from `runtime.NumCPU()` (the trailing
`if cores == 0` reassignment in the source is a no-op). -/
def getCPUInfo (cpuInfo : Except String (List CPUDesc)) (numCPU : Nat) :
    String × Nat × Rat :=
  match cpuInfo with
  | Except.error _ => ("Unknown", numCPU, 0)
  | Except.ok [] => ("Unknown", numCPU, 0)
  | Except.ok (c :: _) => (c.modelName, numCPU, c.mhz / 1000)

/-- Go's `fmt.Sprintf("%s", err)` for the `error` scribbled into the
Packages row: a present error prints its text; a nil error interface
prints fmt's `"%!s(<nil>)"`. -/
def goSprintfErr : Option String → String
  | some e => e
  | none => "%!s(<nil>)"

/-- The collaborator outcomes `main` consumes.  `gpuRes` is the
completed result of the `getGPUInfo()` call (value or error);
`hostname` models `os.Hostname` (zero value `""` on error);
`hostInfo` / `memInfo` model gopsutil's combined queries, whose
fields are empty/zero on failure. -/
structure Host where
  hostname : Except String String
  shellEnv : String
  hostInfo : Except String OSInfo
  memInfo : Except String MemInfo
  cpuInfo : Except String (List CPUDesc)
  numCPU : Nat
  gpuRes : Except String String
  pkgHostInfo : Except String OSInfo
  goos : String
  lookPath : String → Bool
  runCmd : Cmd → Except String String

/-- Embeds the row construction of `main` (part_000 lines 51-92): the
fixed label/value table, with the Packages row appended as either the
count or `"Unable to determine (err)"`.  Note that at the point the
Packages row is built, the Go variable `err` has been reassigned by
`gpu, err := getGPUInfo()` (line 64), so the rendered error is the GPU
call's error — nil, printed as `"%!s(<nil>)"`, whenever the GPU query
succeeded. -/
def mainInfo (h : Host) : List (String × String) :=
  let hostname := match h.hostname with | Except.ok s => s | Except.error _ => ""
  let osInfo := match h.hostInfo with
    | Except.ok i => i
    | Except.error _ => ⟨"", "", "", 0⟩
  let memInfo := match h.memInfo with
    | Except.ok m => m
    | Except.error _ => ⟨0, 0⟩
  let cpu := getCPUInfo h.cpuInfo h.numCPU
  let pkg := getPackageCount h.pkgHostInfo h.goos h.lookPath h.runCmd
  let packageCount : Int := if pkg.2.isSome then -1 else pkg.1
  let gpu := match h.gpuRes with | Except.ok g => g | Except.error _ => "None"
  let err : Option String :=
    match h.gpuRes with | Except.ok _ => none | Except.error e => some e
  [("Hostname", hostname),
   ("OS", osInfo.platform ++ " " ++ osInfo.platformVersion),
   ("Kernel", osInfo.kernelVersion),
   ("Uptime", formatUptime osInfo.uptime),
   ("Shell", goFilepathBase h.shellEnv),
   ("CPU", cpu.1 ++ " (" ++ toString cpu.2.1 ++ " cores @ " ++
     fmtFix2 cpu.2.2 ++ " GHz)"),
   ("GPU", gpu),
   ("Memory", formatBytes memInfo.used ++ " / " ++ formatBytes memInfo.total),
   ("Packages",
     if 0 ≤ packageCount then toString packageCount
     else "Unable to determine (" ++ goSprintfErr err ++ ")")]

/-! ### Claim-side vocabulary and concrete scenarios -/

/-- The ordered unit-suffix sequence named by the specification. -/
def unitSuffixes : List String := ["K", "M", "G", "T", "P", "E"]

/-- A run in which the package-count re-query fails while every other
collaborator succeeds — the scenario exposing the reuse of `err`. -/
def hostBug : Host where
  hostname := Except.ok ("box")
  shellEnv := "/bin/bash"
  hostInfo := Except.ok ⟨"ubuntu", "22.04", "5.15.0", 3661⟩
  memInfo := Except.ok ⟨1073741824, 2147483648⟩
  cpuInfo := Except.error ("cpu query failed")
  numCPU := 4
  gpuRes := Except.ok ("TestGPU")
  pkgHostInfo := Except.error ("host info query failed")
  goos := "linux"
  lookPath := fun _ => false
  runCmd := fun _ => Except.error ("launch failed")

/-- A run in which every collaborator fails. -/
def hostAllFail : Host where
  hostname := Except.error ("no hostname")
  shellEnv := ""
  hostInfo := Except.error ("no host info")
  memInfo := Except.error ("no mem")
  cpuInfo := Except.error ("no cpu")
  numCPU := 0
  gpuRes := Except.error ("no gpu")
  pkgHostInfo := Except.error ("no pkg host info")
  goos := "linux"
  lookPath := fun _ => false
  runCmd := fun _ => Except.error ("no exec")

/-! ### Helper lemmas -/

lemma splitOnNewline_ne_nil (l : List Char) : splitOnNewline l ≠ [] := by
  induction l with
  | nil => simp [splitOnNewline]
  | cons c cs ih =>
    simp only [splitOnNewline]
    split
    · simp
    · cases h : splitOnNewline cs with
      | nil => exact absurd h ih
      | cons s rest => simp

lemma splitOnNewline_length (l : List Char) :
    (splitOnNewline l).length = l.count '\n' + 1 := by
  induction l with
  | nil => simp [splitOnNewline]
  | cons c cs ih =>
    simp only [splitOnNewline]
    by_cases hc : c = '\n'
    · subst hc
      simp [List.count_cons, ih]
    · cases h : splitOnNewline cs with
      | nil => exact absurd h (splitOnNewline_ne_nil cs)
      | cons s rest =>
        rw [h] at ih
        simp only [if_neg hc, h, List.length_cons] at ih ⊢
        simp [List.count_cons, hc, ih]

/-! ### Claim C3 -/

/-- Claim C3: for every captured standard-output text, the package count
is the number of newline-split segments minus one (equivalently, the
number of newline characters), with no validation of segment content;
`"a\nb\nc\n"` yields 3 and `""` yields 0. -/
theorem c3_package_count_is_segments_minus_one :
    (∀ output : List Char,
      packageCountOfOutput output = ((splitOnNewline output).length : Int) - 1 ∧
      packageCountOfOutput output = (output.count '\n' : Int)) ∧
    packageCountOfOutput ("a\nb\nc\n").data = 3 ∧
    packageCountOfOutput ("").data = 0 := by
  refine ⟨fun output => ⟨rfl, ?_⟩, by decide, by decide⟩
  simp only [packageCountOfOutput, splitOnNewline_length]
  push_cast
  ring

/-! ### Claim C4 -/

/-- Claim C4: on Linux, the package-listing command is selected solely
by the platform identity through the fixed table (debian/ubuntu →
`dpkg --get-selections`, arch → `pacman -Q`, fedora/centos/rhel →
`rpm -qa`), and any other identity probes the search path for dpkg,
then pacman, then rpm, failing with "unsupported Linux distribution"
when none is present. -/
theorem c4_linux_dispatch_table :
    (∀ look : String → Bool,
      selectPkgCmd ("linux") ("debian") look = Except.ok dpkgCmd ∧
      selectPkgCmd ("linux") ("ubuntu") look = Except.ok dpkgCmd ∧
      selectPkgCmd ("linux") ("arch") look = Except.ok pacmanCmd ∧
      selectPkgCmd ("linux") ("fedora") look = Except.ok rpmCmd ∧
      selectPkgCmd ("linux") ("centos") look = Except.ok rpmCmd ∧
      selectPkgCmd ("linux") ("rhel") look = Except.ok rpmCmd) ∧
    (∀ (look : String → Bool) (p : String),
      p ∉ (["debian", "ubuntu", "arch", "fedora", "centos", "rhel"] : List String) →
      selectPkgCmd ("linux") p look =
        if look ("dpkg") then Except.ok dpkgCmd
        else if look ("pacman") then Except.ok pacmanCmd
        else if look ("rpm") then Except.ok rpmCmd
        else Except.error ("unsupported Linux distribution")) := by
  constructor
  · intro look
    refine ⟨?_, ?_, ?_, ?_, ?_, ?_⟩ <;> simp [selectPkgCmd]
  · intro look p hp
    simp only [List.mem_cons, List.not_mem_nil, or_false, not_or] at hp
    obtain ⟨h1, h2, h3, h4, h5, h6⟩ := hp
    simp [selectPkgCmd, h1, h2, h3, h4, h5, h6]

/-- Witness for C4: an unlisted identity with no tool on the path fails
with the documented message. -/
theorem c4_linux_dispatch_table_witness :
    selectPkgCmd ("linux") ("gentoo") (fun _ => false) =
      Except.error ("unsupported Linux distribution") := by
  have h := c4_linux_dispatch_table.2 (fun _ => false) ("gentoo") (by decide)
  simpa using h

/-! ### Claim C1 -/

/-- When its argument is below the unit, the loop exits immediately. -/
lemma fbLoopF_of_lt (fuel n div exp : Nat) (h : n < 1024) :
    fbLoopF fuel n div exp = (div, exp) := by
  cases fuel <;> simp [fbLoopF, Nat.not_le.2 h]

/-- Characterisation of the `formatBytes` loop: started on `n` with
`1024 ^ j ≤ n < 1024 ^ (j + 1)` and enough fuel, it multiplies `div`
by `1024 ^ j` and adds `j` to `exp`. -/
lemma fbLoopF_spec :
    ∀ fuel n div exp j : Nat, n ≤ fuel → 1024 ^ j ≤ n → n < 1024 ^ (j + 1) →
      fbLoopF fuel n div exp = (div * 1024 ^ j, exp + j) := by
  intro fuel
  induction fuel with
  | zero =>
    intro n div exp j hf hlo _
    have hpos : 0 < 1024 ^ j := Nat.pos_pow_of_pos j (by norm_num)
    omega
  | succ fuel ih =>
    intro n div exp j hf hlo hhi
    by_cases h : 1024 ≤ n
    · have hj : j ≠ 0 := by
        rintro rfl
        simp at hhi
        omega
      obtain ⟨i, rfl⟩ : ∃ i, j = i + 1 := ⟨j - 1, by omega⟩
      have h1 : 1024 ^ i ≤ n / 1024 := by
        rw [Nat.le_div_iff_mul_le (by norm_num : 0 < 1024)]
        calc 1024 ^ i * 1024 = 1024 ^ (i + 1) := (pow_succ 1024 i).symm
          _ ≤ n := hlo
      have h2 : n / 1024 < 1024 ^ (i + 1) := by
        rw [Nat.div_lt_iff_lt_mul (by norm_num : 0 < 1024)]
        calc n < 1024 ^ (i + 1 + 1) := hhi
          _ = 1024 ^ (i + 1) * 1024 := pow_succ 1024 (i + 1)
      have h3 : n / 1024 ≤ fuel := by
        have := Nat.div_lt_self (by omega : 0 < n) (by norm_num : 1 < 1024)
        omega
      simp only [fbLoopF, if_pos h]
      rw [ih (n / 1024) (div * 1024) (exp + 1) i h3 h1 h2]
      simp only [Prod.mk.injEq]
      constructor
      · rw [mul_assoc, ← pow_succ']
      · omega
    · have hj : j = 0 := by
        rcases Nat.eq_zero_or_pos j with h0 | h0
        · exact h0
        · exfalso
          have : 1024 ≤ 1024 ^ j := Nat.le_self_pow (by omega) 1024
          omega
      subst hj
      simp [fbLoopF, h]

/-- The fuel-supplied bit length is bounded by `k` when its argument is
below `2 ^ k`. -/
lemma bitsF_le_of_lt : ∀ fuel k n : Nat, n < 2 ^ k → bitsF fuel n ≤ k := by
  intro fuel
  induction fuel with
  | zero =>
    intro k n _
    simp [bitsF]
  | succ fuel ih =>
    intro k n hn
    simp only [bitsF]
    split
    · omega
    · cases k with
      | zero =>
        simp at hn
        omega
      | succ j =>
        have hdiv : n / 2 < 2 ^ j := by
          rw [Nat.div_lt_iff_lt_mul (by norm_num : 0 < 2)]
          calc n < 2 ^ (j + 1) := hn
            _ = 2 ^ j * 2 := pow_succ 2 j
        have := ih j (n / 2) hdiv
        omega

/-- The float64 conversion is exact below `2 ^ 53`. -/
lemma toFloat64_eq_of_lt (n : Nat) (h : n < 2 ^ 53) : toFloat64 n = n := by
  have hb : bitsF 64 n ≤ 53 := bitsF_le_of_lt 64 53 n h
  simp [toFloat64, hb]

/-- Counterexample to C1 as stated: at `bytes = 9063494250083123`
(`k = 5`), the `uint64` to `float64` conversion rounds up to
9063494250083124 (a round-to-even tie on the dropped bit), carrying the
quotient past 8.05, so the program prints `"8.1 PiB"` while the claim's
exact rendering of `bytes / 1024 ^ 5` gives `"8.0 PiB"`. -/
theorem c1_counterexample_float64 :
    formatBytes 9063494250083123 = "8.1 PiB" ∧
    fmtFix1 9063494250083123 (1024 ^ 5) ++ " " ++
      unitSuffixes.getD (5 - 1) "" ++ "iB" = "8.0 PiB" ∧
    (1024 : Nat) ^ 5 ≤ 9063494250083123 ∧
    (9063494250083123 : Nat) < 1024 ^ (5 + 1) ∧
    "8.1 PiB" ≠ "8.0 PiB" := by
  refine ⟨by decide, by decide, by decide, by decide, by decide⟩

/-- Claim C1 (amended): `formatBytes` renders values below 1024 as
`"{bytes} B"`; otherwise, with `k` the number of integer divisions by
1024 needed to bring the value below 1024
(`1024 ^ k ≤ bytes < 1024 ^ (k + 1)`), it renders the float64
approximation of `bytes` divided by `1024 ^ k` with exactly one decimal
digit, a space, the `k`-th suffix of K, M, G, T, P, E and `"iB"`.  For
`bytes < 2 ^ 53` the conversion is exact and the rendered value is
exactly `bytes / 1024 ^ k` to one decimal, as the original claim
states; with the five listed sample values. -/
theorem c1_formatBytes_amended :
    (∀ bytes : Nat, bytes < 1024 → formatBytes bytes = toString bytes ++ " B") ∧
    (∀ bytes k : Nat, bytes < 2 ^ 64 → 1 ≤ k →
      1024 ^ k ≤ bytes → bytes < 1024 ^ (k + 1) →
      formatBytes bytes =
        fmtFix1 (toFloat64 bytes) (1024 ^ k) ++ " " ++
          unitSuffixes.getD (k - 1) "" ++ "iB") ∧
    (∀ bytes k : Nat, bytes < 2 ^ 53 → 1 ≤ k →
      1024 ^ k ≤ bytes → bytes < 1024 ^ (k + 1) →
      formatBytes bytes =
        fmtFix1 bytes (1024 ^ k) ++ " " ++
          unitSuffixes.getD (k - 1) "" ++ "iB") ∧
    formatBytes 0 = "0 B" ∧ formatBytes 1023 = "1023 B" ∧
    formatBytes 1024 = "1.0 KiB" ∧ formatBytes 1536 = "1.5 KiB" ∧
    formatBytes 1048576 = "1.0 MiB" := by
  have hgen : ∀ bytes k : Nat, bytes < 2 ^ 64 → 1 ≤ k →
      1024 ^ k ≤ bytes → bytes < 1024 ^ (k + 1) →
      formatBytes bytes =
        fmtFix1 (toFloat64 bytes) (1024 ^ k) ++ " " ++
          unitSuffixes.getD (k - 1) "" ++ "iB" := by
    intro bytes k h64 hk hlo hhi
    obtain ⟨i, rfl⟩ : ∃ i, k = i + 1 := ⟨k - 1, by omega⟩
    have hb : 1024 ≤ bytes := by
      have : 1024 ≤ 1024 ^ (i + 1) := Nat.le_self_pow (by omega) 1024
      omega
    have h1 : 1024 ^ i ≤ bytes / 1024 := by
      rw [Nat.le_div_iff_mul_le (by norm_num : 0 < 1024)]
      calc 1024 ^ i * 1024 = 1024 ^ (i + 1) := (pow_succ 1024 i).symm
        _ ≤ bytes := hlo
    have h2 : bytes / 1024 < 1024 ^ (i + 1) := by
      rw [Nat.div_lt_iff_lt_mul (by norm_num : 0 < 1024)]
      calc bytes < 1024 ^ (i + 1 + 1) := hhi
        _ = 1024 ^ (i + 1) * 1024 := pow_succ 1024 (i + 1)
    have hspec := fbLoopF_spec bytes (bytes / 1024) 1024 0 i
      (Nat.div_le_self bytes 1024) h1 h2
    have hi5 : i ≤ 5 := by
      by_contra hgt
      have h7 : (1024 : Nat) ^ 7 ≤ 1024 ^ (i + 1) :=
        Nat.pow_le_pow_right (by norm_num) (by omega)
      have := le_trans h7 hlo
      norm_num at this
      omega
    simp only [formatBytes, if_neg (Nat.not_lt.2 hb), hspec]
    have hpow : 1024 * 1024 ^ i = 1024 ^ (i + 1) := by
      rw [pow_succ']
    rw [hpow]
    simp only [Nat.add_sub_cancel, Nat.zero_add]
    interval_cases i <;> rfl
  refine ⟨?_, hgen, ?_, by decide, by decide, by decide, by decide, by decide⟩
  · intro bytes h
    simp [formatBytes, h]
  · intro bytes k h53 hk hlo hhi
    rw [hgen bytes k (lt_trans h53 (by norm_num)) hk hlo hhi,
      toFloat64_eq_of_lt bytes h53]

/-- Witness for C1: the exact clause instantiated at 1536 with one
division by 1024 (conversion exact below `2 ^ 53`). -/
theorem c1_formatBytes_amended_witness :
    formatBytes 1536 =
      fmtFix1 1536 (1024 ^ 1) ++ " " ++ unitSuffixes.getD (1 - 1) "" ++ "iB" :=
  c1_formatBytes_amended.2.2.1 1536 1 (by decide) (by decide) (by decide)
    (by decide)

/-! ### Claim C2 -/

/-- Truncated division of a nonnegative integer reduces to `Nat`
division. -/
lemma tdiv_cast_day (n : Nat) :
    ((n : Int)).tdiv 86400000000000 = ((n / 86400000000000 : Nat) : Int) := rfl

lemma tdiv_cast_hour (n : Nat) :
    ((n : Int)).tdiv 3600000000000 = ((n / 3600000000000 : Nat) : Int) := rfl

lemma tdiv_cast_minute (n : Nat) :
    ((n : Int)).tdiv 60000000000 = ((n / 60000000000 : Nat) : Int) := rfl

lemma tmod_cast_24 (n : Nat) :
    ((n : Int)).tmod 24 = ((n % 24 : Nat) : Int) := rfl

lemma tmod_cast_60 (n : Nat) :
    ((n : Int)).tmod 60 = ((n % 60 : Nat) : Int) := rfl

lemma toString_int_cast (n : Nat) : toString ((n : Int)) = toString n := rfl

/-- Counterexample to C2 as stated: at `s = 2 ^ 63` the `int64`
nanosecond duration wraps to exactly 0, so the code renders
`"0d 0h 0m"` while the claim's formula demands the day count
`2 ^ 63 / 86400`. -/
theorem c2_counterexample_overflow :
    formatUptime 9223372036854775808 ≠
      toString (9223372036854775808 / 86400) ++ "d " ++
        toString (9223372036854775808 / 3600 % 24) ++ "h " ++
        toString (9223372036854775808 / 60 % 60) ++ "m" := by
  decide

/-- Claim C2 (amended): for every `s` whose nanosecond duration fits in
`int64` (`s * 10 ^ 9 < 2 ^ 63`), `formatUptime s` is
`"{d}d {h}h {m}m"` with `d = s / 86400`, `h = s / 3600 % 24`,
`m = s / 60 % 60`, the seconds remainder discarded; in particular
`formatUptime 0 = "0d 0h 0m"` and `formatUptime 90061 = "1d 1h 1m"`. -/
theorem c2_formatUptime_amended :
    (∀ s : Nat, s * 1000000000 < 9223372036854775808 →
      formatUptime s =
        toString (s / 86400) ++ "d " ++ toString (s / 3600 % 24) ++ "h " ++
          toString (s / 60 % 60) ++ "m") ∧
    formatUptime 0 = "0d 0h 0m" ∧ formatUptime 90061 = "1d 1h 1m" := by
  refine ⟨?_, by decide, by decide⟩
  intro s hs
  have hn : s * 1000000000 % 18446744073709551616 = s * 1000000000 :=
    Nat.mod_eq_of_lt (by omega)
  simp only [formatUptime, int64wrap, hn, if_pos hs, tdiv_cast_day,
    tdiv_cast_hour, tdiv_cast_minute, tmod_cast_24, tmod_cast_60,
    toString_int_cast]
  have e1 : s * 1000000000 / 86400000000000 = s / 86400 := by omega
  have e2 : s * 1000000000 / 3600000000000 % 24 = s / 3600 % 24 := by omega
  have e3 : s * 1000000000 / 60000000000 % 60 = s / 60 % 60 := by omega
  rw [e1, e2, e3]

/-- Witness for C2: the amended clause instantiated at 90061 seconds. -/
theorem c2_formatUptime_amended_witness :
    formatUptime 90061 =
      toString (90061 / 86400) ++ "d " ++ toString (90061 / 3600 % 24) ++ "h " ++
        toString (90061 / 60 % 60) ++ "m" :=
  c2_formatUptime_amended.1 90061 (by decide)

/-! ### Claim C5 -/

/-- Claim C5, evaluated at the failing inputs: a graphics card whose
device-info pointer is nil — or whose product and vendor records are
both absent — drives `getGPUInfo` into the nil dereference
`card.DeviceInfo.Vendor.Name` (modelled as `none`), so `getGPUInfo` is
not total and the program can panic before rendering.  The remaining
part of the claim does hold: for every `uint64` input the `"KMGTPE"`
suffix index computed by `formatBytes` is in bounds. -/
theorem c5_gpu_panic_and_suffix_bounds :
    getGPUInfo [⟨none⟩] = none ∧
    getGPUInfo [⟨some ⟨none, none⟩⟩] = none ∧
    getGPUInfo [] = some ("None") ∧
    (∀ b : Fin 18446744073709551616,
      (fbLoopF b.val (b.val / 1024) 1024 0).2 < kmgtpe.length) := by
  refine ⟨rfl, rfl, rfl, ?_⟩
  intro b
  by_cases hb : b.val < 1024
  · have h0 : b.val / 1024 = 0 := Nat.div_eq_of_lt hb
    rw [h0, fbLoopF_of_lt b.val 0 1024 0 (by norm_num)]
    simp [kmgtpe]
  · push_neg at hb
    have hpos : b.val / 1024 ≠ 0 := by
      have : 1 ≤ b.val / 1024 := (Nat.one_le_div_iff (by norm_num)).2 hb
      omega
    set j := Nat.log 1024 (b.val / 1024) with hj
    have hlo : 1024 ^ j ≤ b.val / 1024 := Nat.pow_log_le_self 1024 hpos
    have hhi : b.val / 1024 < 1024 ^ (j + 1) :=
      Nat.lt_pow_succ_log_self (by norm_num) (b.val / 1024)
    rw [fbLoopF_spec b.val (b.val / 1024) 1024 0 j (Nat.div_le_self _ _) hlo hhi]
    have hbound : 1024 ^ (j + 1) ≤ b.val := by
      have := (Nat.le_div_iff_mul_le (by norm_num : 0 < 1024)).1 hlo
      calc 1024 ^ (j + 1) = 1024 ^ j * 1024 := pow_succ 1024 j
        _ ≤ b.val := this
    have hb64 : b.val < 2 ^ 64 := b.isLt
    have hj5 : j ≤ 5 := by
      by_contra hgt
      have h7 : (1024 : Nat) ^ 7 ≤ 1024 ^ (j + 1) :=
        Nat.pow_le_pow_right (by norm_num) (by omega)
      have := le_trans h7 hbound
      norm_num at this
      omega
    simp only [kmgtpe, List.length_cons, List.length_nil]
    omega

/-! ### Claim C7 -/

/-- Claim C7: `getPackageCount` does return `(0, error)` on a failed
host re-query, an error on a non-Linux OS, and propagates command
failures; the caller does substitute sentinel `-1` and never prints it.
But the rendered Packages row does not contain `getPackageCount`'s
error: `err` has been reassigned by `gpu, err := getGPUInfo()`
(part_000 line 64), so when the GPU query succeeded the row reads
`"Unable to determine (%!s(<nil>))"` instead of the recorded error. -/
theorem c7_error_flow_and_stale_err :
    (∀ (e goos : String) (look : String → Bool)
        (run : Cmd → Except String String),
      getPackageCount (Except.error e) goos look run = (0, some e)) ∧
    (∀ (info : OSInfo) (look : String → Bool)
        (run : Cmd → Except String String),
      getPackageCount (Except.ok info) ("darwin") look run =
        (0, some ("Unsupported OS for package counting"))) ∧
    (∀ (v k : String) (u : Nat) (look : String → Bool) (e : String),
      getPackageCount (Except.ok ⟨"arch", v, k, u⟩) ("linux") look
          (fun _ => Except.error e) = (0, some e)) ∧
    (mainInfo hostBug).get? 8 =
      some ("Packages", "Unable to determine (%!s(<nil>))") ∧
    "Unable to determine (%!s(<nil>))" ≠
      "Unable to determine (host info query failed)" := by
  refine ⟨fun e goos look run => rfl, ?_, ?_, by decide, by decide⟩
  · intro info look run
    simp [getPackageCount, selectPkgCmd]
  · intro v k u look e
    simp [getPackageCount, selectPkgCmd]

/-! ### Claim C8 -/

/-- Claim C8: for every combination of collaborator outcomes, the row
table has exactly one row per label in the fixed order Hostname, OS,
Kernel, Uptime, Shell, CPU, GPU, Memory, Packages, and a failed source
shows its documented fallback (empty hostname, empty kernel, GPU
`"None"`, Packages `"Unable to determine (...)"`). -/
theorem c8_rows_fixed_order_and_fallbacks :
    ∀ h : Host,
      (mainInfo h).map Prod.fst =
        ["Hostname", "OS", "Kernel", "Uptime", "Shell", "CPU", "GPU", "Memory",
          "Packages"] ∧
      (mainInfo h).length = 9 ∧
      (∀ e, h.gpuRes = Except.error e →
        (mainInfo h).get? 6 = some ("GPU", "None")) ∧
      (∀ e, h.hostname = Except.error e →
        (mainInfo h).get? 0 = some ("Hostname", "")) ∧
      (∀ e, h.hostInfo = Except.error e →
        (mainInfo h).get? 2 = some ("Kernel", "")) ∧
      (∀ e, h.pkgHostInfo = Except.error e →
        ∃ v, (mainInfo h).get? 8 =
          some ("Packages", "Unable to determine (" ++ v ++ ")")) := by
  intro h
  refine ⟨rfl, rfl, ?_, ?_, ?_, ?_⟩
  · intro e he
    simp [mainInfo, he]
  · intro e he
    simp [mainInfo, he]
  · intro e he
    simp [mainInfo, he]
  · intro e he
    cases hg : h.gpuRes with
    | ok g =>
      exact ⟨"%!s(<nil>)", by simp [mainInfo, he, hg, getPackageCount, goSprintfErr]⟩
    | error e2 =>
      exact ⟨e2, by simp [mainInfo, he, hg, getPackageCount, goSprintfErr]⟩

/-- Witness for C8: the all-failures run still yields the fixed rows
with fallback values. -/
theorem c8_rows_fixed_order_and_fallbacks_witness :
    (mainInfo hostAllFail).get? 6 = some ("GPU", "None") ∧
    (mainInfo hostAllFail).get? 0 = some ("Hostname", "") ∧
    (mainInfo hostAllFail).get? 2 = some ("Kernel", "") ∧
    (mainInfo hostAllFail).map Prod.fst =
      ["Hostname", "OS", "Kernel", "Uptime", "Shell", "CPU", "GPU", "Memory",
        "Packages"] :=
  ⟨(c8_rows_fixed_order_and_fallbacks hostAllFail).2.2.1 ("no gpu") rfl,
   (c8_rows_fixed_order_and_fallbacks hostAllFail).2.2.2.1 ("no hostname") rfl,
   (c8_rows_fixed_order_and_fallbacks hostAllFail).2.2.2.2.1 ("no host info") rfl,
   (c8_rows_fixed_order_and_fallbacks hostAllFail).1⟩

/-! ### Claim C9 -/

/-- The width loop never decreases its accumulator and bounds every
label length seen. -/
lemma foldl_maxStep_le :
    ∀ (l : List (String × String)) (a : Nat),
      a ≤ l.foldl maxStep a ∧ ∀ x ∈ l, x.1.length ≤ l.foldl maxStep a := by
  intro l
  induction l with
  | nil => simp
  | cons x l ih =>
    intro a
    have hstep : a ≤ maxStep a x ∧ x.1.length ≤ maxStep a x := by
      unfold maxStep
      split <;> omega
    obtain ⟨ih1, ih2⟩ := ih (maxStep a x)
    refine ⟨le_trans hstep.1 ih1, ?_⟩
    intro y hy
    rcases List.mem_cons.1 hy with rfl | hy
    · exact le_trans hstep.2 ih1
    · exact ih2 y hy

/-- The width loop's result is its starting value or some label's
length. -/
lemma foldl_maxStep_attained :
    ∀ (l : List (String × String)) (a : Nat),
      l.foldl maxStep a = a ∨ ∃ x ∈ l, l.foldl maxStep a = x.1.length := by
  intro l
  induction l with
  | nil => simp
  | cons x l ih =>
    intro a
    rcases ih (maxStep a x) with h | ⟨y, hy, h⟩
    · by_cases hx : x.1.length > a
      · right
        refine ⟨x, List.mem_cons_self x l, ?_⟩
        simp only [maxStep, if_pos hx] at h
        simp only [List.foldl_cons, maxStep, if_pos hx, h]
      · left
        simp only [maxStep, if_neg hx] at h
        simp only [List.foldl_cons, maxStep, if_neg hx, h]
    · right
      exact ⟨y, List.mem_cons_of_mem x hy, by simp only [List.foldl_cons, h]⟩

/-- Claim C9: the shared alignment width is the maximum over the row
labels only — it bounds every label length and is attained by some
label — and each row prints as the coloured label, padding up to that
single shared column, a space, and the coloured value. -/
theorem c9_alignment_width_from_labels :
    (∀ info : List (String × String), ∀ item ∈ info,
      item.1.length ≤ maxLabelLength info) ∧
    (∀ info : List (String × String), info ≠ [] →
      ∃ item ∈ info, maxLabelLength info = item.1.length) ∧
    (∀ info : List (String × String), ∀ item ∈ info,
      renderRow (maxLabelLength info) item =
        colCategory ++ item.1 ++ colReset ++
          String.mk (List.replicate (maxLabelLength info - item.1.length) ' ') ++
          " " ++ (colText ++ item.2 ++ colReset) ++ "\n") := by
  refine ⟨?_, ?_, ?_⟩
  · intro info item hmem
    exact (foldl_maxStep_le info 0).2 item hmem
  · intro info hne
    rcases foldl_maxStep_attained info 0 with h | ⟨x, hx, h⟩
    · cases info with
      | nil => exact absurd rfl hne
      | cons x l =>
        refine ⟨x, List.mem_cons_self x l, ?_⟩
        have hle := (foldl_maxStep_le (x :: l) 0).2 x (List.mem_cons_self x l)
        unfold maxLabelLength
        omega
    · exact ⟨x, hx, h⟩
  · intro info item _
    simp [renderRow, colourise, String.append_assoc]

/-- Witness for C9: a concrete two-row table whose width is the longer
label's length. -/
theorem c9_alignment_width_from_labels_witness :
    ("OS", "u").1.length ≤ maxLabelLength [("Hostname", "box"), ("OS", "u")] ∧
    ∃ item ∈ ([("Hostname", "box"), ("OS", "u")] : List (String × String)),
      maxLabelLength [("Hostname", "box"), ("OS", "u")] = item.1.length :=
  ⟨c9_alignment_width_from_labels.1 _ _ (by simp),
   c9_alignment_width_from_labels.2.1 _ (by simp)⟩

/-! ### Claim C10 -/

/-- Both `takeWhile` and `dropWhile` split an append exactly at the boundary
when the left part satisfies the predicate throughout and the right
part starts with a failing element. -/
lemma takeWhile_dropWhile_append (q : Char → Bool) :
    ∀ l r : List Char, (∀ c ∈ l, q c = true) →
      (∀ c cs, r = c :: cs → q c = false) →
      (l ++ r).takeWhile q = l ∧ (l ++ r).dropWhile q = r := by
  intro l
  induction l with
  | nil =>
    intro r _ hr
    cases r with
    | nil => simp
    | cons c cs =>
      simp [List.takeWhile_cons, List.dropWhile_cons, hr c cs rfl]
  | cons a l ih =>
    intro r hl hr
    have ha : q a = true := hl a (List.mem_cons_self a l)
    obtain ⟨h1, h2⟩ := ih r (fun c hc => hl c (List.mem_cons_of_mem a hc)) hr
    simp [List.takeWhile_cons, List.dropWhile_cons, ha, h1, h2]

/-- Claim C10: the Shell row's value is the final path segment of the
`SHELL` environment value: the row holds `filepath.Base(SHELL)`,
`filepath.Base` returns the suffix after the last slash whenever one
exists and the suffix is nonempty and slash-free, and `"/bin/bash"`
yields `"bash"`. -/
theorem c10_shell_is_basename :
    (∀ h : Host, (mainInfo h).get? 4 = some ("Shell", goFilepathBase h.shellEnv)) ∧
    (∀ pre seg : List Char, seg ≠ [] → '/' ∉ seg →
      goFilepathBase ⟨pre ++ '/' :: seg⟩ = ⟨seg⟩) ∧
    goFilepathBase ("/bin/bash") = "bash" := by
  refine ⟨fun h => rfl, ?_, by decide⟩
  intro pre seg hne hfree
  obtain ⟨c, cs, hrev⟩ : ∃ c cs, seg.reverse = c :: cs := by
    cases hsr : seg.reverse with
    | nil => exact absurd (List.reverse_eq_nil_iff.1 hsr) hne
    | cons c cs => exact ⟨c, cs, rfl⟩
  have hcmem : c ∈ seg := by
    have : c ∈ seg.reverse := by
      rw [hrev]
      exact List.mem_cons_self c cs
    simpa using this
  have hcs : c ≠ '/' := fun hc => hfree (hc ▸ hcmem)
  have hdata : (⟨pre ++ '/' :: seg⟩ : String).data = pre ++ '/' :: seg := rfl
  have hnotempty : (⟨pre ++ '/' :: seg⟩ : String) ≠ "" := by
    intro hcontra
    have : pre ++ '/' :: seg = [] := congrArg String.data hcontra
    simp at this
  rw [goFilepathBase, if_neg hnotempty]
  simp only [hdata]
  have hrevall : (pre ++ '/' :: seg).reverse = seg.reverse ++ '/' :: pre.reverse := by
    simp
  rw [hrevall, hrev]
  have hdrop : ((c :: cs) ++ '/' :: pre.reverse).dropWhile (fun x => x = '/') =
      (c :: cs) ++ '/' :: pre.reverse := by
    simp [List.dropWhile_cons, hcs]
  simp only [List.cons_append] at hdrop ⊢
  rw [hdrop]
  rw [show (c :: (cs ++ '/' :: pre.reverse)).reverse.reverse =
      c :: (cs ++ '/' :: pre.reverse) by simp]
  have htake : ((c :: cs) ++ '/' :: pre.reverse).takeWhile (fun x => x ≠ '/') =
      c :: cs := by
    have hall : ∀ x ∈ c :: cs, (fun x => decide (x ≠ '/')) x = true := by
      intro x hx
      have : x ∈ seg.reverse := by
        rw [hrev]
        exact hx
      have hxseg : x ∈ seg := by simpa using this
      have hxne : ¬x = '/' := by
        intro hxx
        subst hxx
        exact hfree hxseg
      simp [hxne]
    have hhead : ∀ d ds, ('/' :: pre.reverse : List Char) = d :: ds →
        (fun x => decide (x ≠ '/')) d = false := by
      intro d ds hd
      obtain ⟨rfl, -⟩ : d = '/' ∧ ds = pre.reverse := by
        constructor
        · exact (List.cons.injEq _ _ _ _ ▸ hd).1.symm
        · exact ((List.cons.injEq _ _ _ _ ▸ hd).2).symm
      simp
    exact (takeWhile_dropWhile_append _ (c :: cs) ('/' :: pre.reverse) hall hhead).1
  simp only [List.cons_append] at htake
  rw [htake]
  rw [show (c :: cs).reverse = seg by rw [← hrev]; simp]
  rw [if_neg hne]

/-- Witness for C10: `filepath.Base` applied to a two-directory path. -/
theorem c10_shell_is_basename_witness :
    goFilepathBase ⟨("/usr/bin").data ++ '/' :: ("zsh").data⟩ = ⟨("zsh").data⟩ :=
  c10_shell_is_basename.2.1 ("/usr/bin").data ("zsh").data (by decide) (by decide)

/-! ### Claim C6 -/

/-- No RE2 whitespace character is an uppercase letter or digit. -/
lemma isRE2Space_not_upperDigit {c : Char} (h : isRE2Space c = true) :
    isUpperDigit c = false := by
  simp only [isRE2Space, Bool.or_eq_true, decide_eq_true_eq] at h
  rcases h with ((((h | h) | h) | h) | h) <;> subst h <;> decide

/-- On a string of the shape `[A-Z0-9]+ \s* \[ inner \]` with `inner`
nonempty and newline-free, `cleanGPUNameL` returns the trimmed
interior. -/
lemma cleanGPUNameL_match (p w inner : List Char) (hp : p ≠ [])
    (hpall : ∀ c ∈ p, isUpperDigit c = true)
    (hwall : ∀ c ∈ w, isRE2Space c = true)
    (hinner : inner ≠ []) (hnl : '\n' ∉ inner) :
    cleanGPUNameL (p ++ (w ++ ('[' :: (inner ++ [']'])))) = goTrimSpace inner := by
  have hhead1 : ∀ c cs, (w ++ ('[' :: (inner ++ [']'])) : List Char) = c :: cs →
      isUpperDigit c = false := by
    intro c cs hcc
    cases w with
    | nil =>
      simp only [List.nil_append] at hcc
      injection hcc with h1 _
      rw [← h1]
      decide
    | cons a as =>
      simp only [List.cons_append] at hcc
      injection hcc with h1 _
      rw [← h1]
      exact isRE2Space_not_upperDigit (hwall a (List.mem_cons_self a as))
  obtain ⟨ht1, hd1⟩ := takeWhile_dropWhile_append isUpperDigit p
    (w ++ ('[' :: (inner ++ [']']))) hpall hhead1
  have hhead2 : ∀ c cs, ('[' :: (inner ++ [']']) : List Char) = c :: cs →
      isRE2Space c = false := by
    intro c cs hcc
    injection hcc with h1 _
    rw [← h1]
    decide
  obtain ⟨-, hd2⟩ := takeWhile_dropWhile_append isRE2Space w
    ('[' :: (inner ++ [']'])) hwall hhead2
  simp only [cleanGPUNameL, ht1, hd1, hd2, if_neg hp, List.head?_cons,
    List.tail_cons]
  rw [if_pos trivial, List.getLast?_concat, if_pos rfl, List.dropLast_concat,
    if_pos ⟨hinner, hnl⟩]

/-- On any string not of that shape, `cleanGPUNameL` is the
identity. -/
lemma cleanGPUNameL_no_match (s : List Char)
    (hno : ¬ ∃ p w inner : List Char,
      s = p ++ (w ++ ('[' :: (inner ++ [']']))) ∧ p ≠ [] ∧
      (∀ c ∈ p, isUpperDigit c = true) ∧ (∀ c ∈ w, isRE2Space c = true) ∧
      inner ≠ [] ∧ '\n' ∉ inner) :
    cleanGPUNameL s = s := by
  simp only [cleanGPUNameL]
  split_ifs with h1 h2 h3 h4
  · rfl
  · exfalso
    apply hno
    obtain ⟨c, rest, hc⟩ :
        ∃ c rest, (s.dropWhile isUpperDigit).dropWhile isRE2Space = c :: rest := by
      cases hcc : (s.dropWhile isUpperDigit).dropWhile isRE2Space with
      | nil =>
        rw [hcc] at h2
        simp at h2
      | cons c rest => exact ⟨c, rest, rfl⟩
    rw [hc] at h2 h3 h4
    simp only [List.head?_cons, Option.some.injEq] at h2
    subst h2
    simp only [List.tail_cons] at h3 h4
    have hne : rest ≠ [] := by
      intro h0
      rw [h0] at h3
      simp at h3
    have hlast : rest.getLast hne = ']' := by
      have := List.getLast?_eq_getLast rest hne
      rw [this] at h3
      exact Option.some.inj h3
    have hrest : rest = rest.dropLast ++ [']'] := by
      conv_lhs => rw [← List.dropLast_append_getLast hne]
      rw [hlast]
    have e1 : s = s.takeWhile isUpperDigit ++ s.dropWhile isUpperDigit :=
      (List.takeWhile_append_dropWhile _ _).symm
    have e2 : s.dropWhile isUpperDigit =
        (s.dropWhile isUpperDigit).takeWhile isRE2Space ++
          ('[' :: rest) := by
      conv_lhs => rw [← List.takeWhile_append_dropWhile
        (p := isRE2Space) (l := s.dropWhile isUpperDigit)]
      rw [hc]
    refine ⟨s.takeWhile isUpperDigit,
      (s.dropWhile isUpperDigit).takeWhile isRE2Space,
      rest.dropLast, ?_, h1, ?_, ?_, h4.1, h4.2⟩
    · rw [e2] at e1
      rw [hrest] at e1
      exact e1
    · intro c hcmem
      exact List.mem_takeWhile_imp hcmem
    · intro c hcmem
      exact List.mem_takeWhile_imp hcmem
  · rfl
  · rfl
  · rfl

/-- Claim C6: `cleanGPUName` returns the trimmed bracketed capture when
the whole string matches `[A-Z0-9]+ \s* \[ (.+) \]` (with `.`
excluding newline), and the input unchanged otherwise; with the three
listed sample values. -/
theorem c6_cleanGPUName_pattern :
    (∀ p w inner : List Char, p ≠ [] →
      (∀ c ∈ p, isUpperDigit c = true) → (∀ c ∈ w, isRE2Space c = true) →
      inner ≠ [] → '\n' ∉ inner →
      cleanGPUName ⟨p ++ (w ++ ('[' :: (inner ++ [']'])))⟩ =
        ⟨goTrimSpace inner⟩) ∧
    (∀ s : List Char,
      (¬ ∃ p w inner : List Char,
        s = p ++ (w ++ ('[' :: (inner ++ [']']))) ∧ p ≠ [] ∧
        (∀ c ∈ p, isUpperDigit c = true) ∧ (∀ c ∈ w, isRE2Space c = true) ∧
        inner ≠ [] ∧ '\n' ∉ inner) →
      cleanGPUName ⟨s⟩ = ⟨s⟩) ∧
    cleanGPUName ("0300 [GeForce RTX 3080]") = "GeForce RTX 3080" ∧
    cleanGPUName ("Intel HD Graphics") = "Intel HD Graphics" ∧
    cleanGPUName ("AB12[Foo]") = "Foo" := by
  refine ⟨?_, ?_, by decide, by decide, by decide⟩
  · intro p w inner hp hpall hwall hinner hnl
    exact congrArg String.mk
      (cleanGPUNameL_match p w inner hp hpall hwall hinner hnl)
  · intro s hno
    exact congrArg String.mk (cleanGPUNameL_no_match s hno)

/-- Witness for C6: the matching clause instantiated on a concrete
decomposition with surrounding whitespace in the capture. -/
theorem c6_cleanGPUName_pattern_witness :
    cleanGPUName ⟨("AB").data ++ ([' '] ++ ('[' :: ((" X ").data ++ [']'])))⟩ =
      ⟨goTrimSpace (" X ").data⟩ :=
  c6_cleanGPUName_pattern.1 ("AB").data [' '] (" X ").data
    (by decide) (by decide) (by decide) (by decide) (by decide)

end GoFetch
